import Mathlib

/-
Shallow embedding of the lz4jb streaming block encoder
(`src/lz4_block_output.rs`) and the small abstractions it uses.

Bytes are modelled as `Nat`; buffers as `List Nat`.  The underlying
`Write` sink is abstracted as a state type `σ` with three fallible
operations (header write, payload write, sink flush), mirroring the
three calls the encoder makes on its writer.  `none` from a sink
operation models an I/O error.  Fallible encoder operations return
`Except` whose error value carries the encoder state at the point of
the early `return Err(..)` in the Rust code, mirroring that `self` is
mutated in place and keeps whatever state it had when the error
propagated.
-/

namespace Lz4jb

/-- Compression method nibble of a block header: `CompressionMethod::Raw`
or `CompressionMethod::Lz4` (from `lz4_block_header.rs`, used by the
encoder). -/
inductive CompressionMethod where
  | Raw : CompressionMethod
  | Lz4 : CompressionMethod
deriving DecidableEq, Repr

/-- The block header record exactly as the encoder fills it in
`Lz4BlockOutputBase::flush`: method, compression level (size class),
`compressed_len: u32`, `decompressed_len: u32`, `checksum: u32`.
The `u32` casts are modelled as `% 2 ^ 32`. -/
structure Lz4BlockHeader where
  compressionMethod : CompressionMethod
  compressionLevel : Nat
  compressedLen : Nat
  decompressedLen : Nat
  checksum : Nat
deriving DecidableEq, Repr

/-- Modelled from the spec: `CompressionLevel::from_block_size` lives in
`lz4_block_header.rs`, which is not among the provided sources.  Per the
spec it fails with a `ConfigError` (modelled as `none`) for block sizes
outside `[64, 33554432]`, and otherwise deterministically encodes the
block-size bound: the smallest size class whose bound `2 ^ (class + 10)`
is at least the block size. -/
def CompressionLevel.fromBlockSize (blockSize : Nat) : Option Nat :=
  if 64 ≤ blockSize ∧ blockSize ≤ 33554432 then
    some ((List.range 16).findIdx (fun lvl => decide (blockSize ≤ 2 ^ (lvl + 10))))
  else
    none

/-- Modelled from the spec: the maximum decompressed buffer length of a
size class, the invertible bound encoding used to size buffers
(`CompressionLevel::get_max_decompressed_buffer_len` in
`lz4_block_header.rs`, absent from the sources). -/
def CompressionLevel.maxDecompressedBufferLen (lvl : Nat) : Nat :=
  2 ^ (lvl + 10)

/-- Abstract write sink: the `W: Write` parameter of
`Lz4BlockOutputBase`, restricted to the three operations `flush`
performs on it: `Lz4BlockHeader::write(&mut writer)`,
`writer.write_all(buf)`, and `writer.flush()`.  `none` is an I/O
error. -/
structure WriteSink (σ : Type) where
  writeHeader : σ → Lz4BlockHeader → Option σ
  writeAll : σ → List Nat → Option σ
  flushSink : σ → Option σ

/-- Encoder state: the fields of `Lz4BlockOutputBase`.  The compression
backend is carried as its `compress` function (`none` models a backend
error); the checksum is the stored `fn(&[u8]) -> u32`.  The staging
buffer `compressed_buf` only matters through the bytes `compress`
returns, so only its length is tracked. -/
structure Lz4BlockOutputBase (σ : Type) where
  writer : σ
  compress : List Nat → Option (List Nat)
  compressionLevel : Nat
  writePtr : Nat
  decompressedBuf : List Nat
  compressedBufLen : Nat
  checksum : List Nat → Nat

/-- `Lz4BlockOutputBase::default_block_size`: `1 << 16`. -/
def defaultBlockSize : Nat := 1 <<< 16

/-- `Lz4BlockOutputBase::with_checksum`: validates the block size via
`CompressionLevel::from_block_size` (error modelled as `none`), sizes
the staging buffer from the backend's maximum-compressed-length
estimate, and builds the state with `write_ptr = 0` and a zeroed input
buffer of `block_size` bytes. -/
def withChecksum (w : σ) (compress : List Nat → Option (List Nat))
    (maxCompressedLen : Nat → Nat) (blockSize : Nat)
    (checksum : List Nat → Nat) : Option (Lz4BlockOutputBase σ) :=
  match CompressionLevel.fromBlockSize blockSize with
  | none => none
  | some lvl =>
    some { writer := w
           compress := compress
           compressionLevel := lvl
           writePtr := 0
           decompressedBuf := List.replicate blockSize 0
           compressedBufLen := maxCompressedLen (CompressionLevel.maxDecompressedBufferLen lvl)
           checksum := checksum }

/-- `Lz4BlockOutputBase::copy_to_buf`: copies `buf` into
`decompressed_buf[write_ptr ..]`, failing with `ErrorInternal` (the
`Unit` error) if it does not fit; on success advances `write_ptr` and
returns the number of bytes copied. -/
def copyToBuf (e : Lz4BlockOutputBase σ) (buf : List Nat) :
    Except Unit (Lz4BlockOutputBase σ × Nat) :=
  if buf.length > (e.decompressedBuf.drop e.writePtr).length then
    Except.error ()
  else
    Except.ok
      ({ e with
          decompressedBuf :=
            e.decompressedBuf.take e.writePtr ++ buf ++
              e.decompressedBuf.drop (e.writePtr + buf.length)
          writePtr := e.writePtr + buf.length }, buf.length)

/-- `Lz4BlockOutputBase::remaining_buf_len`: the free capacity
`decompressed_buf.len() - write_ptr`, or `ErrorInternal` when
`write_ptr` exceeds the buffer length. -/
def remainingBufLen (e : Lz4BlockOutputBase σ) : Except Unit Nat :=
  if e.writePtr ≤ e.decompressedBuf.length then
    Except.ok (e.decompressedBuf.length - e.writePtr)
  else
    Except.error ()

/-- The header/payload pair `flush` emits, given the bytes the backend
produced: `(CompressionMethod::Lz4, compressed)` when strictly smaller
than the buffered original, otherwise `(CompressionMethod::Raw,
original)`, with the header fields exactly as the Rust struct literal
in `flush` fills them. -/
def blockToWrite (e : Lz4BlockOutputBase σ) (compressedBuf : List Nat) :
    Lz4BlockHeader × List Nat :=
  let decompressedBuf := e.decompressedBuf.take e.writePtr
  let mb :=
    if compressedBuf.length < decompressedBuf.length then
      (CompressionMethod.Lz4, compressedBuf)
    else
      (CompressionMethod.Raw, decompressedBuf)
  ({ compressionMethod := mb.1
     compressionLevel := e.compressionLevel
     compressedLen := mb.2.length % 2 ^ 32
     decompressedLen := decompressedBuf.length % 2 ^ 32
     checksum := e.checksum decompressedBuf }, mb.2)

/-- The body of the `if self.write_ptr > 0` branch of
`Lz4BlockOutputBase::flush`: compress the buffered bytes, pick the
method and payload, write the header and the payload.  Each early
`return Err` carries the encoder state at that point. -/
def flushBody (sink : WriteSink σ) (e : Lz4BlockOutputBase σ) :
    Except (Lz4BlockOutputBase σ) (Lz4BlockOutputBase σ) :=
  if 0 < e.writePtr then
    match e.compress (e.decompressedBuf.take e.writePtr) with
    | none => Except.error e
    | some compressedBuf =>
      match sink.writeHeader e.writer (blockToWrite e compressedBuf).1 with
      | none => Except.error e
      | some w1 =>
        match sink.writeAll w1 (blockToWrite e compressedBuf).2 with
        | none => Except.error { e with writer := w1 }
        | some w2 => Except.ok { e with writer := w2 }
  else
    Except.ok e

/-- `Lz4BlockOutputBase::flush`: emit the buffered block when
`write_ptr > 0`, then unconditionally reset `write_ptr` to `0` and
flush the underlying sink. -/
def flush (sink : WriteSink σ) (e : Lz4BlockOutputBase σ) :
    Except (Lz4BlockOutputBase σ) (Lz4BlockOutputBase σ) :=
  match flushBody sink e with
  | Except.error e1 => Except.error e1
  | Except.ok e1 =>
    match sink.flushSink e1.writer with
    | none => Except.error { e1 with writePtr := 0 }
    | some w => Except.ok { e1 with writePtr := 0, writer := w }

/-- `Lz4BlockOutputBase::write`: implicit flush when the input buffer is
exactly full, then copy `min(buf.len(), remaining)` bytes and return
that count. -/
def write (sink : WriteSink σ) (e : Lz4BlockOutputBase σ) (buf : List Nat) :
    Except (Lz4BlockOutputBase σ) (Lz4BlockOutputBase σ × Nat) :=
  match (if e.writePtr = e.decompressedBuf.length then flush sink e else Except.ok e) with
  | Except.error e1 => Except.error e1
  | Except.ok e1 =>
    match remainingBufLen e1 with
    | Except.error _ => Except.error e1
    | Except.ok rem =>
      match copyToBuf e1 (buf.take (min buf.length rem)) with
      | Except.error _ => Except.error e1
      | Except.ok r => Except.ok r

/-- `impl Drop for Lz4BlockOutputBase`: `let _ = self.flush();` — one
final flush whose error is discarded. -/
def dropEncoder (sink : WriteSink σ) (e : Lz4BlockOutputBase σ) :
    Lz4BlockOutputBase σ :=
  match flush sink e with
  | Except.ok e1 => e1
  | Except.error e1 => e1

/-- One event observed by the trace sink: a block header write or a
payload write. -/
inductive BlockEvent where
  | header : Lz4BlockHeader → BlockEvent
  | payload : List Nat → BlockEvent
deriving DecidableEq, Repr

/-- A concrete, never-failing sink that records every header and
payload written to it, in order (a `Vec<u8>` writer observed at block
granularity).  Its own flush is a no-op, like `Vec<u8>::flush`. -/
def traceSink : WriteSink (List BlockEvent) where
  writeHeader s h := some (s ++ [BlockEvent.header h])
  writeAll s b := some (s ++ [BlockEvent.payload b])
  flushSink s := some s

/-- The headers recorded in a trace, in order. -/
def headersOf (trace : List BlockEvent) : List Lz4BlockHeader :=
  trace.filterMap (fun ev =>
    match ev with
    | BlockEvent.header h => some h
    | BlockEvent.payload _ => none)

/-- Number of framed blocks in a trace. -/
def headerCount (trace : List BlockEvent) : Nat :=
  (headersOf trace).length

/-- The caller-side retry loop of `Write::write_all` from the Rust
standard library: call `write` until the buffer is consumed, treating a
zero-byte write as an error (`ErrorKind::WriteZero`).  Structured on a
fuel argument; `buf.length` fuel always suffices because every
successful iteration consumes at least one byte. -/
def writeAllFuel (sink : WriteSink σ) :
    Nat → Lz4BlockOutputBase σ → List Nat →
    Except (Lz4BlockOutputBase σ) (Lz4BlockOutputBase σ)
  | _, e, [] => Except.ok e
  | 0, e, _ :: _ => Except.error e
  | fuel + 1, e, b :: bs =>
    match write sink e (b :: bs) with
    | Except.error e1 => Except.error e1
    | Except.ok (e1, n) =>
      if n = 0 then Except.error e1
      else writeAllFuel sink fuel e1 ((b :: bs).drop n)

/-- `write_all` with enough fuel for its argument. -/
def writeAllLoop (sink : WriteSink σ) (e : Lz4BlockOutputBase σ)
    (buf : List Nat) :
    Except (Lz4BlockOutputBase σ) (Lz4BlockOutputBase σ) :=
  writeAllFuel sink buf.length e buf

/-- A caller feeding a sequence of chunks to the encoder, each via the
`write_all` loop. -/
def encodeChunks (sink : WriteSink σ) (e : Lz4BlockOutputBase σ) :
    List (List Nat) →
    Except (Lz4BlockOutputBase σ) (Lz4BlockOutputBase σ)
  | [] => Except.ok e
  | c :: cs =>
    match writeAllLoop sink e c with
    | Except.error e1 => Except.error e1
    | Except.ok e1 => encodeChunks sink e1 cs

/-- A full encoder run: write all chunks, then a final explicit flush
(the same flush disposal performs). -/
def encodeRun (sink : WriteSink σ) (e : Lz4BlockOutputBase σ)
    (chunks : List (List Nat)) :
    Except (Lz4BlockOutputBase σ) (Lz4BlockOutputBase σ) :=
  match encodeChunks sink e chunks with
  | Except.error e1 => Except.error e1
  | Except.ok e1 => flush sink e1

/-! ## Helper lemmas -/

theorem headersOf_append (a b : List BlockEvent) :
    headersOf (a ++ b) = headersOf a ++ headersOf b := by
  simp [headersOf]

theorem headerCount_append (a b : List BlockEvent) :
    headerCount (a ++ b) = headerCount a + headerCount b := by
  simp [headerCount, headersOf_append]

theorem headerCount_nil : headerCount ([] : List BlockEvent) = 0 := rfl

theorem setWritePtr_eq_self {σ : Type} (e : Lz4BlockOutputBase σ)
    (h : e.writePtr = 0) : { e with writePtr := 0 } = e := by
  cases e
  simp_all

theorem flushBody_of_writePtr_zero {σ : Type} (sink : WriteSink σ)
    (e : Lz4BlockOutputBase σ) (h : e.writePtr = 0) :
    flushBody sink e = Except.ok e := by
  simp [flushBody, h]

theorem flush_trace_of_writePtr_zero (e : Lz4BlockOutputBase (List BlockEvent))
    (h : e.writePtr = 0) : flush traceSink e = Except.ok e := by
  rw [flush, flushBody_of_writePtr_zero _ _ h]
  simp [traceSink, setWritePtr_eq_self e h]

theorem flush_trace_pos (e : Lz4BlockOutputBase (List BlockEvent))
    (c : List Nat) (hp : 0 < e.writePtr)
    (hc : e.compress (e.decompressedBuf.take e.writePtr) = some c) :
    flush traceSink e = Except.ok
      { e with
          writer := e.writer ++ [BlockEvent.header (blockToWrite e c).1,
                                 BlockEvent.payload (blockToWrite e c).2]
          writePtr := 0 } := by
  rw [flush, flushBody, if_pos hp, hc]
  simp [traceSink]

theorem flushBody_ok_fields {σ : Type} (sink : WriteSink σ)
    (e e1 : Lz4BlockOutputBase σ) (h : flushBody sink e = Except.ok e1) :
    e1.writePtr = e.writePtr ∧ e1.decompressedBuf = e.decompressedBuf ∧
    e1.compress = e.compress ∧ e1.checksum = e.checksum ∧
    e1.compressionLevel = e.compressionLevel := by
  rw [flushBody] at h
  split at h
  · split at h
    · exact absurd h (by simp)
    · split at h
      · exact absurd h (by simp)
      · split at h
        · exact absurd h (by simp)
        · rw [Except.ok.injEq] at h
          subst h
          exact ⟨rfl, rfl, rfl, rfl, rfl⟩
  · rw [Except.ok.injEq] at h
    subst h
    exact ⟨rfl, rfl, rfl, rfl, rfl⟩

theorem flushBody_error_fields {σ : Type} (sink : WriteSink σ)
    (e e1 : Lz4BlockOutputBase σ) (h : flushBody sink e = Except.error e1) :
    e1.writePtr = e.writePtr ∧ e1.decompressedBuf = e.decompressedBuf ∧
    e1.compress = e.compress ∧ e1.checksum = e.checksum ∧
    e1.compressionLevel = e.compressionLevel := by
  rw [flushBody] at h
  split at h
  · split at h
    · rw [Except.error.injEq] at h
      subst h
      exact ⟨rfl, rfl, rfl, rfl, rfl⟩
    · split at h
      · rw [Except.error.injEq] at h
        subst h
        exact ⟨rfl, rfl, rfl, rfl, rfl⟩
      · split at h
        · rw [Except.error.injEq] at h
          subst h
          exact ⟨rfl, rfl, rfl, rfl, rfl⟩
        · exact absurd h (by simp)
  · exact absurd h (by simp)

theorem flushBody_ok_pos {σ : Type} (sink : WriteSink σ)
    (e e1 : Lz4BlockOutputBase σ) (h : flushBody sink e = Except.ok e1)
    (hp : 0 < e.writePtr) :
    ∃ c w1 w2, e.compress (e.decompressedBuf.take e.writePtr) = some c ∧
      sink.writeHeader e.writer (blockToWrite e c).1 = some w1 ∧
      sink.writeAll w1 (blockToWrite e c).2 = some w2 ∧
      e1 = { e with writer := w2 } := by
  rw [flushBody, if_pos hp] at h
  split at h
  · exact absurd h (by simp)
  · rename_i c hcomp
    split at h
    · exact absurd h (by simp)
    · rename_i w1 hhd
      split at h
      · exact absurd h (by simp)
      · rename_i w2 hwa
        rw [Except.ok.injEq] at h
        exact ⟨c, w1, w2, hcomp, hhd, hwa, h.symm⟩

theorem flush_ok_fields {σ : Type} (sink : WriteSink σ)
    (e e' : Lz4BlockOutputBase σ) (h : flush sink e = Except.ok e') :
    e'.writePtr = 0 ∧ e'.decompressedBuf = e.decompressedBuf ∧
    e'.compress = e.compress ∧ e'.checksum = e.checksum ∧
    e'.compressionLevel = e.compressionLevel := by
  rw [flush] at h
  split at h
  · exact absurd h (by simp)
  · rename_i e1 hb
    obtain ⟨h1, h2, h3, h4, h5⟩ := flushBody_ok_fields sink e e1 hb
    split at h
    · exact absurd h (by simp)
    · rw [Except.ok.injEq] at h
      subst h
      exact ⟨rfl, h2, h3, h4, h5⟩

theorem flush_trace_total (e : Lz4BlockOutputBase (List BlockEvent))
    (cf : List Nat → List Nat) (hc : e.compress = fun b => some (cf b)) :
    ∃ e', flush traceSink e = Except.ok e' ∧
      e'.writePtr = 0 ∧ e'.decompressedBuf = e.decompressedBuf ∧
      e'.compress = e.compress ∧ e'.checksum = e.checksum ∧
      e'.compressionLevel = e.compressionLevel ∧
      headerCount e'.writer =
        headerCount e.writer + (if 0 < e.writePtr then 1 else 0) := by
  by_cases hp : 0 < e.writePtr
  · have hcomp : e.compress (e.decompressedBuf.take e.writePtr) =
        some (cf (e.decompressedBuf.take e.writePtr)) := by rw [hc]
    refine ⟨_, flush_trace_pos e _ hp hcomp, rfl, rfl, rfl, rfl, rfl, ?_⟩
    rw [headerCount_append, if_pos hp]
    simp [headerCount, headersOf]
  · have hz : e.writePtr = 0 := by omega
    exact ⟨e, flush_trace_of_writePtr_zero e hz, hz, rfl, rfl, rfl, rfl, by
      simp [hp]⟩

theorem write_not_full {σ : Type} (sink : WriteSink σ)
    (e : Lz4BlockOutputBase σ) (buf : List Nat)
    (hlt : e.writePtr < e.decompressedBuf.length) :
    write sink e buf = Except.ok
      ({ e with
          decompressedBuf :=
            e.decompressedBuf.take e.writePtr ++
              buf.take (min buf.length (e.decompressedBuf.length - e.writePtr)) ++
              e.decompressedBuf.drop
                (e.writePtr + min buf.length (e.decompressedBuf.length - e.writePtr))
          writePtr :=
            e.writePtr + min buf.length (e.decompressedBuf.length - e.writePtr) },
        min buf.length (e.decompressedBuf.length - e.writePtr)) := by
  have hne : e.writePtr ≠ e.decompressedBuf.length := Nat.ne_of_lt hlt
  have htk : (buf.take (min buf.length (e.decompressedBuf.length - e.writePtr))).length
      = min buf.length (e.decompressedBuf.length - e.writePtr) := by
    rw [List.length_take]
    omega
  have hguard : ¬ (min buf.length (e.decompressedBuf.length - e.writePtr)
      > (e.decompressedBuf.drop e.writePtr).length) := by
    rw [List.length_drop]
    omega
  simp only [write, if_neg hne, remainingBufLen, if_pos (Nat.le_of_lt hlt),
    copyToBuf, htk]
  rw [if_neg hguard]

theorem write_full {σ : Type} (sink : WriteSink σ)
    (e : Lz4BlockOutputBase σ) (buf : List Nat)
    (hfull : e.writePtr = e.decompressedBuf.length)
    (e1 : Lz4BlockOutputBase σ) (hfl : flush sink e = Except.ok e1) :
    write sink e buf = Except.ok
      ({ e1 with
          decompressedBuf :=
            buf.take (min buf.length e.decompressedBuf.length) ++
              e1.decompressedBuf.drop (min buf.length e.decompressedBuf.length)
          writePtr := min buf.length e.decompressedBuf.length },
        min buf.length e.decompressedBuf.length) := by
  obtain ⟨hp0, hbuf, _, _, _⟩ := flush_ok_fields sink e e1 hfl
  have hle1 : e1.writePtr ≤ e1.decompressedBuf.length := by
    rw [hp0]
    exact Nat.zero_le _
  have htk : (buf.take (min buf.length e.decompressedBuf.length)).length
      = min buf.length e.decompressedBuf.length := by
    rw [List.length_take]
    omega
  have hrem : remainingBufLen e1 = Except.ok e.decompressedBuf.length := by
    rw [remainingBufLen, if_pos hle1, hp0, hbuf, Nat.sub_zero]
  have hguard : ¬ (min buf.length e.decompressedBuf.length
      > (e.decompressedBuf.drop 0).length) := by
    rw [List.length_drop]
    omega
  simp only [write, if_pos hfull, hfl, hrem, copyToBuf, hp0, hbuf,
    Nat.zero_add, List.take_zero, List.nil_append, htk]
  rw [if_neg hguard]

theorem write_trace_step (e : Lz4BlockOutputBase (List BlockEvent))
    (cf : List Nat → List Nat) (buf : List Nat)
    (hc : e.compress = fun b => some (cf b))
    (hle : e.writePtr ≤ e.decompressedBuf.length)
    (hbs : 0 < e.decompressedBuf.length)
    (hne : buf ≠ []) :
    ∃ e' n, write traceSink e buf = Except.ok (e', n) ∧ 0 < n ∧ n ≤ buf.length ∧
      e'.writePtr ≤ e'.decompressedBuf.length ∧
      e'.decompressedBuf.length = e.decompressedBuf.length ∧
      e'.compress = e.compress ∧
      headerCount e'.writer * e.decompressedBuf.length + e'.writePtr =
        headerCount e.writer * e.decompressedBuf.length + e.writePtr + n := by
  have hbl : 0 < buf.length := List.length_pos.mpr hne
  by_cases hfull : e.writePtr = e.decompressedBuf.length
  · obtain ⟨e1, hfl, hp0, hbuf, _, _, _, hcount⟩ := flush_trace_total e cf hc
    refine ⟨_, _, write_full traceSink e buf hfull e1 hfl, ?_, ?_, ?_, ?_, ?_, ?_⟩
    · omega
    · exact Nat.min_le_left _ _
    · simp only [List.length_append, List.length_take, List.length_drop, hbuf]
      omega
    · simp only [List.length_append, List.length_take, List.length_drop, hbuf]
      omega
    · simp only []
      rw [(flush_ok_fields traceSink e e1 hfl).2.2.1]
    · simp only []
      rw [hcount, if_pos (by omega)]
      have hmin : min buf.length e.decompressedBuf.length ≤ e.decompressedBuf.length :=
        Nat.min_le_right _ _
      rw [Nat.succ_mul]
      omega
  · have hlt : e.writePtr < e.decompressedBuf.length := Nat.lt_of_le_of_ne hle hfull
    refine ⟨_, _, write_not_full traceSink e buf hlt, ?_, ?_, ?_, ?_, ?_, ?_⟩
    · omega
    · exact Nat.min_le_left _ _
    · simp only [List.length_append, List.length_take, List.length_drop]
      omega
    · simp only [List.length_append, List.length_take, List.length_drop]
      omega
    · rfl
    · dsimp only
      generalize headerCount e.writer * e.decompressedBuf.length = A
      omega

theorem writeAllFuel_trace (fuel : Nat) :
    ∀ (e : Lz4BlockOutputBase (List BlockEvent)) (buf : List Nat)
      (cf : List Nat → List Nat),
    e.compress = (fun b => some (cf b)) →
    e.writePtr ≤ e.decompressedBuf.length →
    0 < e.decompressedBuf.length →
    buf.length ≤ fuel →
    ∃ e', writeAllFuel traceSink fuel e buf = Except.ok e' ∧
      e'.writePtr ≤ e'.decompressedBuf.length ∧
      e'.decompressedBuf.length = e.decompressedBuf.length ∧
      e'.compress = e.compress ∧
      headerCount e'.writer * e.decompressedBuf.length + e'.writePtr =
        headerCount e.writer * e.decompressedBuf.length + e.writePtr + buf.length := by
  induction fuel with
  | zero =>
    intro e buf cf hc hle hbs hf
    have hbuf : buf = [] := List.length_eq_zero.mp (Nat.le_zero.mp hf)
    subst hbuf
    exact ⟨e, rfl, hle, rfl, rfl, by simp⟩
  | succ fuel ih =>
    intro e buf cf hc hle hbs hf
    match buf with
    | [] => exact ⟨e, rfl, hle, rfl, rfl, by simp⟩
    | b :: bs =>
      obtain ⟨e1, n, hw, hn, hnle, hle1, hlen1, hcomp1, hcount1⟩ :=
        write_trace_step e cf (b :: bs) hc hle hbs (by simp)
      have hrec := ih e1 ((b :: bs).drop n) cf (by rw [hcomp1, hc])
        hle1 (by omega)
        (by rw [List.length_drop]; simp only [List.length_cons] at hf ⊢; omega)
      obtain ⟨e', hwa, hle', hlen', hcomp', hcount'⟩ := hrec
      refine ⟨e', ?_, hle', by omega, by rw [hcomp', hcomp1], ?_⟩
      · have hn0 : ¬ (n = 0) := by omega
        simp only [writeAllFuel, hw]
        rw [if_neg hn0]
        exact hwa
      · rw [List.length_drop] at hcount'
        rw [hlen1] at hcount'
        simp only [List.length_cons] at hnle hcount' ⊢
        generalize hA : headerCount e'.writer * e.decompressedBuf.length = A at hcount'
        generalize hB : headerCount e1.writer * e.decompressedBuf.length = B at hcount' hcount1
        generalize hC : headerCount e.writer * e.decompressedBuf.length = C at hcount1
        omega

theorem encodeChunks_trace (chunks : List (List Nat)) :
    ∀ (e : Lz4BlockOutputBase (List BlockEvent)) (cf : List Nat → List Nat),
    e.compress = (fun b => some (cf b)) →
    e.writePtr ≤ e.decompressedBuf.length →
    0 < e.decompressedBuf.length →
    ∃ e', encodeChunks traceSink e chunks = Except.ok e' ∧
      e'.writePtr ≤ e'.decompressedBuf.length ∧
      e'.decompressedBuf.length = e.decompressedBuf.length ∧
      e'.compress = e.compress ∧
      headerCount e'.writer * e.decompressedBuf.length + e'.writePtr =
        headerCount e.writer * e.decompressedBuf.length + e.writePtr +
          (chunks.map List.length).sum := by
  induction chunks with
  | nil =>
    intro e cf hc hle hbs
    exact ⟨e, rfl, hle, rfl, rfl, by simp⟩
  | cons c cs ih =>
    intro e cf hc hle hbs
    obtain ⟨e1, hwa, hle1, hlen1, hcomp1, hcount1⟩ :=
      writeAllFuel_trace c.length e c cf hc hle hbs (Nat.le_refl _)
    obtain ⟨e', hrest, hle', hlen', hcomp', hcount'⟩ :=
      ih e1 cf (by rw [hcomp1, hc]) hle1 (by omega)
    refine ⟨e', ?_, hle', by omega, by rw [hcomp', hcomp1], ?_⟩
    · simp only [encodeChunks, writeAllLoop, hwa]
      exact hrest
    · rw [hlen1] at hcount'
      simp only [List.map_cons, List.sum_cons]
      generalize hA : headerCount e'.writer * e.decompressedBuf.length = A at hcount'
      generalize hB : headerCount e1.writer * e.decompressedBuf.length = B at hcount' hcount1
      generalize hC : headerCount e.writer * e.decompressedBuf.length = C at hcount1
      omega

theorem flush_trace_new_header (e e' : Lz4BlockOutputBase (List BlockEvent))
    (hfl : flush traceSink e = Except.ok e')
    (h : Lz4BlockHeader) (hmem : BlockEvent.header h ∈ e'.writer) :
    BlockEvent.header h ∈ e.writer ∨
      ∃ c, e.compress (e.decompressedBuf.take e.writePtr) = some c ∧
        0 < e.writePtr ∧ h = (blockToWrite e c).1 := by
  by_cases hp : 0 < e.writePtr
  · cases hcomp : e.compress (e.decompressedBuf.take e.writePtr) with
    | none =>
      have herr : flush traceSink e = Except.error e := by
        simp only [flush, flushBody, if_pos hp, hcomp]
      rw [herr] at hfl
      exact absurd hfl (by simp)
    | some c =>
      rw [flush_trace_pos e c hp hcomp, Except.ok.injEq] at hfl
      subst hfl
      rcases List.mem_append.mp hmem with hm | hm
      · exact Or.inl hm
      · simp only [List.mem_cons, List.mem_singleton] at hm
        rcases hm with hm | hm
        · rw [BlockEvent.header.injEq] at hm
          exact Or.inr ⟨c, rfl, hp, hm⟩
        · exact absurd hm (by simp)
  · have hz : e.writePtr = 0 := by omega
    rw [flush_trace_of_writePtr_zero e hz, Except.ok.injEq] at hfl
    subst hfl
    exact Or.inl hmem

/-- C1: on a flush with a non-empty buffer, when the backend's compressed
length is at least `fill_pointer` the emitted block is `Raw` with the
original buffered bytes as payload and `payload_len = original_len`;
when it is strictly smaller the block is `Compressed` (`Lz4`) with the
compressed bytes as payload. -/
theorem c1_raw_vs_compressed_policy
    (e : Lz4BlockOutputBase (List BlockEvent)) (c : List Nat)
    (hp : 0 < e.writePtr)
    (hle : e.writePtr ≤ e.decompressedBuf.length)
    (hc : e.compress (e.decompressedBuf.take e.writePtr) = some c) :
    (e.writePtr ≤ c.length →
      flush traceSink e = Except.ok
        { e with
            writer := e.writer ++
              [BlockEvent.header
                { compressionMethod := CompressionMethod.Raw
                  compressionLevel := e.compressionLevel
                  compressedLen := e.writePtr % 2 ^ 32
                  decompressedLen := e.writePtr % 2 ^ 32
                  checksum := e.checksum (e.decompressedBuf.take e.writePtr) },
               BlockEvent.payload (e.decompressedBuf.take e.writePtr)]
            writePtr := 0 }) ∧
    (c.length < e.writePtr →
      flush traceSink e = Except.ok
        { e with
            writer := e.writer ++
              [BlockEvent.header
                { compressionMethod := CompressionMethod.Lz4
                  compressionLevel := e.compressionLevel
                  compressedLen := c.length % 2 ^ 32
                  decompressedLen := e.writePtr % 2 ^ 32
                  checksum := e.checksum (e.decompressedBuf.take e.writePtr) },
               BlockEvent.payload c]
            writePtr := 0 }) := by
  have hlen : (e.decompressedBuf.take e.writePtr).length = e.writePtr := by
    rw [List.length_take]
    omega
  constructor
  · intro hraw
    have hbt : blockToWrite e c =
        ({ compressionMethod := CompressionMethod.Raw
           compressionLevel := e.compressionLevel
           compressedLen := e.writePtr % 2 ^ 32
           decompressedLen := e.writePtr % 2 ^ 32
           checksum := e.checksum (e.decompressedBuf.take e.writePtr) },
         e.decompressedBuf.take e.writePtr) := by
      simp only [blockToWrite, hlen, if_neg (Nat.not_lt.mpr hraw)]
    rw [flush_trace_pos e c hp hc, hbt]
  · intro hcomp
    have hbt : blockToWrite e c =
        ({ compressionMethod := CompressionMethod.Lz4
           compressionLevel := e.compressionLevel
           compressedLen := c.length % 2 ^ 32
           decompressedLen := e.writePtr % 2 ^ 32
           checksum := e.checksum (e.decompressedBuf.take e.writePtr) },
         c) := by
      simp only [blockToWrite, hlen, if_pos hcomp]
    rw [flush_trace_pos e c hp hc, hbt]

/-- C2: every header a flush adds to the sink carries as checksum the
stored checksum function applied to the original buffered bytes
`input_buffer[0 .. fill_pointer]`, not to the payload, for both the Raw
and the Compressed method. -/
theorem c2_checksum_over_original_bytes
    (e e' : Lz4BlockOutputBase (List BlockEvent))
    (hfl : flush traceSink e = Except.ok e') :
    ∀ h, BlockEvent.header h ∈ e'.writer →
      BlockEvent.header h ∈ e.writer ∨
        h.checksum = e.checksum (e.decompressedBuf.take e.writePtr) := by
  intro h hmem
  rcases flush_trace_new_header e e' hfl h hmem with hm | ⟨c, _, _, hh⟩
  · exact Or.inl hm
  · refine Or.inr ?_
    rw [hh]
    simp only [blockToWrite]

/-- C6: every header a flush adds to the sink satisfies the framing
invariant: `payload_len = original_len` for a Raw block and
`payload_len ≤ original_len` for a Compressed block (given the real
bound that the input buffer is smaller than `2 ^ 32`, which holds for
every constructed encoder since block sizes are at most `33554432`). -/
theorem c6_header_length_invariant
    (e e' : Lz4BlockOutputBase (List BlockEvent))
    (hlen : e.decompressedBuf.length < 2 ^ 32)
    (hfl : flush traceSink e = Except.ok e') :
    ∀ h, BlockEvent.header h ∈ e'.writer →
      BlockEvent.header h ∈ e.writer ∨
        ((h.compressionMethod = CompressionMethod.Raw →
            h.compressedLen = h.decompressedLen) ∧
         (h.compressionMethod = CompressionMethod.Lz4 →
            h.compressedLen ≤ h.decompressedLen)) := by
  intro h hmem
  rcases flush_trace_new_header e e' hfl h hmem with hm | ⟨c, _, _, hh⟩
  · exact Or.inl hm
  · refine Or.inr ?_
    have hdl : (e.decompressedBuf.take e.writePtr).length < 2 ^ 32 := by
      rw [List.length_take]
      omega
    rw [hh]
    simp only [blockToWrite]
    by_cases hcl : c.length < (e.decompressedBuf.take e.writePtr).length
    · rw [if_pos hcl]
      refine ⟨by intro habs; exact absurd habs (by simp), ?_⟩
      intro _
      simp only []
      rw [Nat.mod_eq_of_lt (by omega), Nat.mod_eq_of_lt hdl]
      omega
    · rw [if_neg hcl]
      exact ⟨fun _ => rfl, by intro habs; exact absurd habs (by simp)⟩

/-- C5: a flush with an empty buffer writes neither header nor payload
and only forwards the sink's flush (the trace is unchanged); flushing
twice with no intervening write equals flushing once; and a freshly
constructed encoder flushed without writes yields zero framed blocks. -/
theorem c5_empty_flush_idempotent :
    (∀ e : Lz4BlockOutputBase (List BlockEvent),
       e.writePtr = 0 → flush traceSink e = Except.ok e) ∧
    (∀ e e' : Lz4BlockOutputBase (List BlockEvent),
       flush traceSink e = Except.ok e' → flush traceSink e' = Except.ok e') ∧
    (∀ (compress : List Nat → Option (List Nat)) (mcl : Nat → Nat)
       (bs : Nat) (ck : List Nat → Nat)
       (e0 : Lz4BlockOutputBase (List BlockEvent)),
       withChecksum ([] : List BlockEvent) compress mcl bs ck = some e0 →
       flush traceSink e0 = Except.ok e0 ∧ headerCount e0.writer = 0) := by
  refine ⟨flush_trace_of_writePtr_zero, ?_, ?_⟩
  · intro e e' hfl
    exact flush_trace_of_writePtr_zero e' (flush_ok_fields traceSink e e' hfl).1
  · intro compress mcl bs ck e0 hmk
    rw [withChecksum] at hmk
    split at hmk
    · exact absurd hmk (by simp)
    · rw [Option.some.injEq] at hmk
      subst hmk
      exact ⟨flush_trace_of_writePtr_zero _ rfl, rfl⟩

/-- C8: encoder construction accepts exactly the block sizes in
`[64, 33554432]` (rejection modelled as `none`, the `ConfigError`), and
the default block size is `65536`, which is always accepted. -/
theorem c8_block_size_validation :
    (∀ (σ : Type) (w : σ) (compress : List Nat → Option (List Nat))
       (mcl : Nat → Nat) (ck : List Nat → Nat) (n : Nat),
       (withChecksum w compress mcl n ck).isSome ↔ (64 ≤ n ∧ n ≤ 33554432)) ∧
    defaultBlockSize = 65536 ∧
    (∀ (σ : Type) (w : σ) (compress : List Nat → Option (List Nat))
       (mcl : Nat → Nat) (ck : List Nat → Nat),
       (withChecksum w compress mcl defaultBlockSize ck).isSome) := by
  have hmain : ∀ (σ : Type) (w : σ) (compress : List Nat → Option (List Nat))
      (mcl : Nat → Nat) (ck : List Nat → Nat) (n : Nat),
      (withChecksum w compress mcl n ck).isSome ↔ (64 ≤ n ∧ n ≤ 33554432) := by
    intro σ w compress mcl ck n
    by_cases hr : 64 ≤ n ∧ n ≤ 33554432
  <;> simp [withChecksum, CompressionLevel.fromBlockSize, hr]
  refine ⟨hmain, by decide, ?_⟩
  intro σ w compress mcl ck
  exact (hmain σ w compress mcl ck defaultBlockSize).mpr (by decide)

/-- C3: `write(buf)` performs an implicit flush first exactly when the
input buffer is full on entry, then copies
`min(buf.len, block_size - fill_pointer)` bytes (with `fill_pointer`
taken after the implicit flush), advances `fill_pointer` by that count,
and returns it — possibly less than `buf.len`.  The first conjunct is
the not-full case (no flush, the sink is untouched); the second is the
exactly-full case, continuing from whatever state a successful implicit
flush produced. -/
theorem c3_write_copies_min
    {σ : Type} (sink : WriteSink σ) (e : Lz4BlockOutputBase σ)
    (buf : List Nat) :
    (e.writePtr < e.decompressedBuf.length →
      write sink e buf = Except.ok
        ({ e with
            decompressedBuf :=
              e.decompressedBuf.take e.writePtr ++
                buf.take (min buf.length (e.decompressedBuf.length - e.writePtr)) ++
                e.decompressedBuf.drop
                  (e.writePtr + min buf.length (e.decompressedBuf.length - e.writePtr))
            writePtr :=
              e.writePtr + min buf.length (e.decompressedBuf.length - e.writePtr) },
          min buf.length (e.decompressedBuf.length - e.writePtr))) ∧
    (e.writePtr = e.decompressedBuf.length →
      ∀ e1, flush sink e = Except.ok e1 →
        write sink e buf = Except.ok
          ({ e1 with
              decompressedBuf :=
                buf.take (min buf.length e.decompressedBuf.length) ++
                  e1.decompressedBuf.drop (min buf.length e.decompressedBuf.length)
              writePtr := min buf.length e.decompressedBuf.length },
            min buf.length e.decompressedBuf.length)) :=
  ⟨fun hlt => write_not_full sink e buf hlt,
   fun hfull e1 hfl => write_full sink e buf hfull e1 hfl⟩

/-- C4: writing any chunking of `k * block_size` bytes through the
`write_all` retry loop and then flushing emits exactly `k` framed
blocks, for any freshly constructed encoder whose backend always
succeeds, independently of how the caller splits the data into write
calls. -/
theorem c4_block_splitting
    (bs k : Nat) (cf : List Nat → List Nat)
    (e0 : Lz4BlockOutputBase (List BlockEvent)) (chunks : List (List Nat))
    (h0w : e0.writer = []) (h0p : e0.writePtr = 0)
    (h0b : e0.decompressedBuf.length = bs)
    (h0c : e0.compress = fun b => some (cf b))
    (hbs : 0 < bs)
    (hdata : chunks.join.length = k * bs) :
    ∃ e', encodeRun traceSink e0 chunks = Except.ok e' ∧
      headerCount e'.writer = k := by
  obtain ⟨e1, hchunks, hle1, hlen1, hcomp1, hcount1⟩ :=
    encodeChunks_trace chunks e0 cf h0c (by omega) (by omega)
  rw [h0w, h0b, h0p] at hcount1
  rw [headerCount_nil, Nat.zero_mul, Nat.zero_add] at hcount1
  have hsum : (chunks.map List.length).sum = k * bs := by
    rw [← hdata, List.length_join]
  rw [hsum] at hcount1
  obtain ⟨e', hfl, _, _, _, _, _, hcount'⟩ := flush_trace_total e1 cf
    (by rw [hcomp1, h0c])
  refine ⟨e', ?_, ?_⟩
  · rw [encodeRun, hchunks]
    exact hfl
  · rw [hcount']
    have hle1' : e1.writePtr ≤ bs := by omega
    by_cases hz : 0 < e1.writePtr
    · rw [if_pos hz]
      have hlt : headerCount e1.writer * bs < k * bs := by omega
      have h1 : headerCount e1.writer < k := Nat.lt_of_mul_lt_mul_right hlt
      have h2 : k * bs ≤ (headerCount e1.writer + 1) * bs := by
        rw [Nat.succ_mul]
        omega
      have h3 : k ≤ headerCount e1.writer + 1 := Nat.le_of_mul_le_mul_right h2 hbs
      omega
    · rw [if_neg hz]
      have hz0 : e1.writePtr = 0 := by omega
      rw [hz0, Nat.add_zero] at hcount1
      exact Nat.eq_of_mul_eq_mul_right hbs hcount1

/-- A reachable encoder state whose input buffer is exactly full
(2-byte block, both bytes buffered), with an identity backend. -/
def c7Full : Lz4BlockOutputBase (List BlockEvent) :=
  { writer := []
    compress := fun b => some b
    compressionLevel := 0
    writePtr := 2
    decompressedBuf := [46, 46]
    compressedBufLen := 4
    checksum := fun _ => 0 }

/-- The state after `write []` on `c7Full`: the implicit flush has
emitted the buffered block. -/
def c7FullAfter : Lz4BlockOutputBase (List BlockEvent) :=
  { c7Full with
      writer := [BlockEvent.header
        { compressionMethod := CompressionMethod.Raw
          compressionLevel := 0
          compressedLen := 2
          decompressedLen := 2
          checksum := 0 },
        BlockEvent.payload [46, 46]]
      writePtr := 0 }

/-- C7 counterexample: on an encoder whose input buffer is exactly full,
`write` with an empty slice is not a no-op — it returns 0 but performs
the implicit flush, emitting a block to the sink, so the underlying
sink does change. -/
theorem c7_write_empty_not_noop_when_full :
    write traceSink c7Full [] = Except.ok (c7FullAfter, 0) ∧
    c7FullAfter.writer ≠ c7Full.writer := by
  refine ⟨rfl, by decide⟩

/-- C7 (amended): calling `write` with an empty slice returns 0 and
leaves the encoder state and the sink unchanged, provided the input
buffer is not exactly full on entry; when it is exactly full, the
implicit flush still runs first and emits the buffered block. -/
theorem c7_write_empty_noop
    {σ : Type} (sink : WriteSink σ) (e : Lz4BlockOutputBase σ)
    (hlt : e.writePtr < e.decompressedBuf.length) :
    write sink e [] = Except.ok (e, 0) := by
  have h := write_not_full sink e [] hlt
  simp only [List.length_nil, Nat.zero_min, List.take_nil, List.append_nil,
    Nat.add_zero, List.take_append_drop] at h
  exact h

/-- A not-full encoder state for the C7 witness. -/
def c7NotFull : Lz4BlockOutputBase (List BlockEvent) :=
  { c7Full with writePtr := 1 }

/-- C7 witness: the amended no-op statement at a concrete not-full
state. -/
theorem c7_write_empty_noop_witness :
    c7NotFull.writePtr < c7NotFull.decompressedBuf.length ∧
    write traceSink c7NotFull [] = Except.ok (c7NotFull, 0) :=
  ⟨by decide, c7_write_empty_noop traceSink c7NotFull (by decide)⟩

/-- C9: disposal (`Drop`) performs exactly one final flush — on a
backend that succeeds it frames the buffered bytes into exactly one
additional block when the buffer is non-empty (and none otherwise) and
leaves the buffer empty — and when the flush fails the error is
swallowed: `dropEncoder` still returns the resulting state instead of
propagating the failure. -/
theorem c9_drop_flushes_once
    (e : Lz4BlockOutputBase (List BlockEvent)) (cf : List Nat → List Nat)
    (hc : e.compress = fun b => some (cf b)) :
    headerCount (dropEncoder traceSink e).writer =
      headerCount e.writer + (if 0 < e.writePtr then 1 else 0) ∧
    (dropEncoder traceSink e).writePtr = 0 ∧
    (∀ (σ : Type) (sink : WriteSink σ) (e2 e' : Lz4BlockOutputBase σ),
       flush sink e2 = Except.error e' → dropEncoder sink e2 = e') := by
  obtain ⟨e', hfl, hp, _, _, _, _, hcount⟩ := flush_trace_total e cf hc
  have hdrop : dropEncoder traceSink e = e' := by rw [dropEncoder, hfl]
  refine ⟨by rw [hdrop, hcount], by rw [hdrop, hp], ?_⟩
  intro σ sink e2 e'' herr
  rw [dropEncoder, herr]

/-- An encoder with one buffered byte for the C9 witness. -/
def c9Enc : Lz4BlockOutputBase (List BlockEvent) :=
  { writer := []
    compress := fun b => some b
    compressionLevel := 0
    writePtr := 1
    decompressedBuf := [9, 9]
    compressedBufLen := 4
    checksum := fun _ => 0 }

/-- C9 witness: dropping a concrete encoder with one buffered byte
emits exactly one block and empties the buffer. -/
theorem c9_drop_flushes_once_witness :
    headerCount (dropEncoder traceSink c9Enc).writer =
      headerCount c9Enc.writer + (if 0 < c9Enc.writePtr then 1 else 0) ∧
    (dropEncoder traceSink c9Enc).writePtr = 0 := by
  have h := c9_drop_flushes_once c9Enc (fun b => b) rfl
  exact ⟨h.1, h.2.1⟩

/-- C10: when flush fails, the input buffer is retained unchanged, and
`fill_pointer` either keeps its old value (failure before the block was
fully written: backend error, header-write error, or payload-write
error) or is 0 — and it is 0 only when the header and the whole payload
had already been written successfully (the remaining failure point
being the sink's own flush). -/
theorem c10_error_retains_buffer
    {σ : Type} (sink : WriteSink σ) (e e' : Lz4BlockOutputBase σ)
    (herr : flush sink e = Except.error e') :
    e'.decompressedBuf = e.decompressedBuf ∧
    (e'.writePtr = e.writePtr ∨
      (e'.writePtr = 0 ∧
        ∃ c w1 w2, e.compress (e.decompressedBuf.take e.writePtr) = some c ∧
          sink.writeHeader e.writer (blockToWrite e c).1 = some w1 ∧
          sink.writeAll w1 (blockToWrite e c).2 = some w2)) := by
  rw [flush] at herr
  split at herr
  · rename_i e1 hb
    rw [Except.error.injEq] at herr
    subst herr
    obtain ⟨h1, h2, _, _, _⟩ := flushBody_error_fields sink e e1 hb
    exact ⟨h2, Or.inl h1⟩
  · rename_i e1 hb
    split at herr
    · rw [Except.error.injEq] at herr
      subst herr
      obtain ⟨h1, h2, _, _, _⟩ := flushBody_ok_fields sink e e1 hb
      by_cases hp : 0 < e.writePtr
      · obtain ⟨c, w1, w2, hcomp, hhd, hwa, _⟩ := flushBody_ok_pos sink e e1 hb hp
        exact ⟨h2, Or.inr ⟨rfl, c, w1, w2, hcomp, hhd, hwa⟩⟩
      · exact ⟨h2, Or.inl (by simp only []; omega)⟩
    · exact absurd herr (by simp)

/-- An encoder whose backend always fails, for the C10 witness. -/
def c10Enc : Lz4BlockOutputBase (List BlockEvent) :=
  { writer := []
    compress := fun _ => none
    compressionLevel := 0
    writePtr := 1
    decompressedBuf := [5]
    compressedBufLen := 4
    checksum := fun _ => 0 }

/-- C10 witness: a concrete failing flush (backend error) retains the
input buffer. -/
theorem c10_error_retains_buffer_witness :
    flush traceSink c10Enc = Except.error c10Enc ∧
    c10Enc.decompressedBuf = c10Enc.decompressedBuf :=
  ⟨rfl, (c10_error_retains_buffer traceSink c10Enc c10Enc rfl).1⟩

/-- Encoder whose backend expands 2 buffered bytes to 3, for the C1
witness (Raw fallback side). -/
def c1RawEnc : Lz4BlockOutputBase (List BlockEvent) :=
  { writer := []
    compress := fun _ => some [1, 2, 3]
    compressionLevel := 0
    writePtr := 2
    decompressedBuf := [10, 20]
    compressedBufLen := 8
    checksum := fun _ => 7 }

/-- Encoder whose backend shrinks 2 buffered bytes to 1, for the C1
witness (Compressed side). -/
def c1Lz4Enc : Lz4BlockOutputBase (List BlockEvent) :=
  { c1RawEnc with compress := fun _ => some [9] }

/-- C1 witness: both policy branches at concrete encoders — an
expanding backend yields a Raw block carrying the original bytes with
`payload_len = original_len`, a shrinking backend yields a Compressed
block carrying the compressed bytes. -/
theorem c1_raw_vs_compressed_policy_witness :
    (0 < c1RawEnc.writePtr ∧
     c1RawEnc.writePtr ≤ c1RawEnc.decompressedBuf.length ∧
     c1RawEnc.writePtr ≤ 3 ∧
     flush traceSink c1RawEnc = Except.ok
       { c1RawEnc with
           writer := [BlockEvent.header
             { compressionMethod := CompressionMethod.Raw
               compressionLevel := 0
               compressedLen := 2
               decompressedLen := 2
               checksum := 7 },
             BlockEvent.payload [10, 20]]
           writePtr := 0 }) ∧
    (1 < c1Lz4Enc.writePtr ∧
     flush traceSink c1Lz4Enc = Except.ok
       { c1Lz4Enc with
           writer := [BlockEvent.header
             { compressionMethod := CompressionMethod.Lz4
               compressionLevel := 0
               compressedLen := 1
               decompressedLen := 2
               checksum := 7 },
             BlockEvent.payload [9]]
           writePtr := 0 }) :=
  ⟨⟨by decide, by decide, by decide,
    (c1_raw_vs_compressed_policy c1RawEnc [1, 2, 3]
      (by decide) (by decide) rfl).1 (by decide)⟩,
   ⟨by decide,
    (c1_raw_vs_compressed_policy c1Lz4Enc [9]
      (by decide) (by decide) rfl).2 (by decide)⟩⟩

/-- Encoder for the C2 witness; its checksum function returns the
length of its argument plus 40, so the emitted checksum 42 witnesses
that it was computed over the 2 original bytes, not over the 1-byte
compressed payload. -/
def c2Enc : Lz4BlockOutputBase (List BlockEvent) :=
  { writer := []
    compress := fun _ => some [1]
    compressionLevel := 0
    writePtr := 2
    decompressedBuf := [3, 4]
    compressedBufLen := 4
    checksum := fun l => l.length + 40 }

/-- The header the C2 witness flush emits. -/
def c2Hdr : Lz4BlockHeader :=
  { compressionMethod := CompressionMethod.Lz4
    compressionLevel := 0
    compressedLen := 1
    decompressedLen := 2
    checksum := 42 }

/-- The C2 witness encoder after its flush. -/
def c2EncAfter : Lz4BlockOutputBase (List BlockEvent) :=
  { c2Enc with
      writer := [BlockEvent.header c2Hdr, BlockEvent.payload [1]]
      writePtr := 0 }

/-- C2 witness: the concrete emitted header's checksum equals the
checksum function applied to the original buffered bytes. -/
theorem c2_checksum_over_original_bytes_witness :
    flush traceSink c2Enc = Except.ok c2EncAfter ∧
    BlockEvent.header c2Hdr ∈ c2EncAfter.writer ∧
    (BlockEvent.header c2Hdr ∈ c2Enc.writer ∨
      c2Hdr.checksum = c2Enc.checksum (c2Enc.decompressedBuf.take c2Enc.writePtr)) :=
  ⟨rfl, by decide,
   c2_checksum_over_original_bytes c2Enc c2EncAfter rfl c2Hdr (by decide)⟩

/-- Encoders for the C3 witness: one with room left, one exactly
full. -/
def c3NotFullEnc : Lz4BlockOutputBase (List BlockEvent) :=
  { writer := []
    compress := fun b => some b
    compressionLevel := 0
    writePtr := 0
    decompressedBuf := [0, 0]
    compressedBufLen := 4
    checksum := fun _ => 0 }

/-- The exactly-full C3 witness encoder. -/
def c3FullEnc : Lz4BlockOutputBase (List BlockEvent) :=
  { c3NotFullEnc with writePtr := 2, decompressedBuf := [7, 8] }

/-- `c3FullEnc` after its implicit flush. -/
def c3FullEncFlushed : Lz4BlockOutputBase (List BlockEvent) :=
  { c3FullEnc with
      writer := [BlockEvent.header
        { compressionMethod := CompressionMethod.Raw
          compressionLevel := 0
          compressedLen := 2
          decompressedLen := 2
          checksum := 0 },
        BlockEvent.payload [7, 8]]
      writePtr := 0 }

/-- C3 witness: a short write into a part-empty buffer copies
`min(3, 2) = 2` bytes without touching the sink, and a write into an
exactly-full buffer flushes first and then copies `min(1, 2) = 1`
byte. -/
theorem c3_write_copies_min_witness :
    (c3NotFullEnc.writePtr < c3NotFullEnc.decompressedBuf.length ∧
     write traceSink c3NotFullEnc [5, 6, 7] = Except.ok
       ({ c3NotFullEnc with decompressedBuf := [5, 6], writePtr := 2 }, 2)) ∧
    (c3FullEnc.writePtr = c3FullEnc.decompressedBuf.length ∧
     flush traceSink c3FullEnc = Except.ok c3FullEncFlushed ∧
     write traceSink c3FullEnc [9] = Except.ok
       ({ c3FullEncFlushed with decompressedBuf := [9, 8], writePtr := 1 }, 1)) :=
  ⟨⟨by decide,
    (c3_write_copies_min traceSink c3NotFullEnc [5, 6, 7]).1 (by decide)⟩,
   ⟨by decide, rfl,
    (c3_write_copies_min traceSink c3FullEnc [9]).2 (by decide)
      c3FullEncFlushed rfl⟩⟩

/-- A fresh 2-byte-block encoder for the C4 witness. -/
def c4Enc : Lz4BlockOutputBase (List BlockEvent) :=
  { writer := []
    compress := fun b => some b
    compressionLevel := 0
    writePtr := 0
    decompressedBuf := [0, 0]
    compressedBufLen := 4
    checksum := fun _ => 0 }

/-- C4 witness: 4 bytes chunked as `[1,2,3]` then `[4]` through a
2-byte-block encoder produce exactly 2 framed blocks. -/
theorem c4_block_splitting_witness :
    (0 : Nat) < 2 ∧
    ([[1, 2, 3], [4]] : List (List Nat)).join.length = 2 * 2 ∧
    (match encodeRun traceSink c4Enc [[1, 2, 3], [4]] with
     | Except.ok e' => headerCount e'.writer = 2
     | Except.error _ => False) := by
  refine ⟨by decide, by decide, ?_⟩
  obtain ⟨e', hrun, hcount⟩ := c4_block_splitting 2 2 (fun b => b) c4Enc
    [[1, 2, 3], [4]] rfl rfl rfl rfl (by decide) (by decide)
  rw [hrun]
  exact hcount

/-- An empty-buffer encoder with a non-empty sink trace for the C5
witness. -/
def c5Enc : Lz4BlockOutputBase (List BlockEvent) :=
  { writer := [BlockEvent.payload [1]]
    compress := fun _ => none
    compressionLevel := 0
    writePtr := 0
    decompressedBuf := [0]
    compressedBufLen := 2
    checksum := fun _ => 0 }

/-- The encoder `withChecksum` constructs at block size 64 for the C5
witness. -/
def c5Fresh : Lz4BlockOutputBase (List BlockEvent) :=
  { writer := []
    compress := fun b => some b
    compressionLevel := 0
    writePtr := 0
    decompressedBuf := List.replicate 64 0
    compressedBufLen := 1024
    checksum := fun _ => 0 }

/-- C5 witness: flushing a concrete empty-buffer encoder leaves its
trace unchanged (also when repeated), and a freshly constructed encoder
flushed without writes frames zero blocks. -/
theorem c5_empty_flush_idempotent_witness :
    c5Enc.writePtr = 0 ∧
    flush traceSink c5Enc = Except.ok c5Enc ∧
    (withChecksum ([] : List BlockEvent) (fun b => some b) (fun n => n) 64
        (fun _ => 0) = some c5Fresh) ∧
    (flush traceSink c5Fresh = Except.ok c5Fresh ∧
      headerCount c5Fresh.writer = 0) := by
  have h := c5_empty_flush_idempotent
  have h1 := h.1 c5Enc rfl
  have h2 := h.2.1 c5Enc c5Enc h1
  exact ⟨rfl, h2, rfl, h.2.2 (fun b => some b) (fun n => n) 64 (fun _ => 0)
    c5Fresh rfl⟩

/-- Encoder for the C6 witness (compressing backend). -/
def c6Enc : Lz4BlockOutputBase (List BlockEvent) :=
  { writer := []
    compress := fun _ => some [1]
    compressionLevel := 0
    writePtr := 2
    decompressedBuf := [3, 4]
    compressedBufLen := 4
    checksum := fun _ => 0 }

/-- The header the C6 witness flush emits. -/
def c6Hdr : Lz4BlockHeader :=
  { compressionMethod := CompressionMethod.Lz4
    compressionLevel := 0
    compressedLen := 1
    decompressedLen := 2
    checksum := 0 }

/-- The C6 witness encoder after its flush. -/
def c6EncAfter : Lz4BlockOutputBase (List BlockEvent) :=
  { c6Enc with
      writer := [BlockEvent.header c6Hdr, BlockEvent.payload [1]]
      writePtr := 0 }

/-- C6 witness: the concrete emitted Compressed header satisfies
`payload_len ≤ original_len`. -/
theorem c6_header_length_invariant_witness :
    c6Enc.decompressedBuf.length < 2 ^ 32 ∧
    flush traceSink c6Enc = Except.ok c6EncAfter ∧
    BlockEvent.header c6Hdr ∈ c6EncAfter.writer ∧
    c6Hdr.compressedLen ≤ c6Hdr.decompressedLen := by
  have h := c6_header_length_invariant c6Enc c6EncAfter (by decide) rfl
    c6Hdr (by decide)
  rcases h with hm | hinv
  · exact absurd hm (by decide)
  · exact ⟨by decide, rfl, by decide, hinv.2 rfl⟩

end Lz4jb
